import Mathlib

/-!
A shallow embedding of the NeuraGuide data-validation pipeline
(`src/NeuraGuide/data_validation_pipeline.py`) and proofs about its
record-reconciliation logic: duplicate resolution, URL / year / numeric /
description validation and missing-data filling.

Modelling conventions: a pandas cell is `Cell` (text, number as a rational,
or missing/NaN); a data frame is a `List Record` in row order, row labels
being positions.  Fallible pandas operations (those that raise) return
`Except String`.
-/

set_option maxRecDepth 8000

/-- A cell of the table: a text value, a numeric value (pandas numeric
values are modelled as rationals), or a missing value (NaN/None). -/
inductive Cell where
  | str : String → Cell
  | num : ℚ → Cell
  | missing : Cell
deriving DecidableEq

instance : Inhabited Cell := ⟨Cell.missing⟩

/-- A row of the catalog table: the columns the pipeline addresses by name,
plus the remaining columns of the schema (`extras`) in order. -/
structure Record where
  toolName : Cell
  company : Cell
  website : Cell
  launchYear : Cell
  reviewCount : Cell
  averageRating : Cell
  description : Cell
  extras : List Cell
deriving DecidableEq

instance : Inhabited Record :=
  ⟨⟨Cell.missing, Cell.missing, Cell.missing, Cell.missing, Cell.missing,
    Cell.missing, Cell.missing, []⟩⟩

/-! ## URLValidator -/

/-- The scheme test of `URLValidator.is_valid_url`:
`re.match(r'^https?://', url, re.IGNORECASE)`. -/
def hasHttpScheme (s : String) : Bool :=
  (("http://").data.isPrefixOf s.toLower.data)
    || (("https://").data.isPrefixOf s.toLower.data)

/-- The normalisation `is_valid_url` performs before testing: strip the
string, and prepend `http://` when no scheme is present. -/
def normalizeUrl (s : String) : String :=
  let t := s.trim
  if hasHttpScheme t then t else ("http://") ++ t

/-- `URLValidator.is_valid_url`: a missing value or a non-string value is
rejected before any string test (`if pd.isna(url) or not isinstance(url, str):
return False`); a string is normalised and handed to the string-level URL
test.  The source delegates that test to the `validators` package when it is
installed and to a regex fallback otherwise, so it is a parameter `check`
here, universally quantified in every theorem. -/
def is_valid_url (check : String → Bool) : Cell → Bool
  | Cell.str s => check (normalizeUrl s)
  | _ => false

/-- The `url_missing` flag of `URLValidator.validate_urls`:
`results[self.url_column].isna()`. -/
def url_missing (c : Cell) : Bool := c == Cell.missing

/-- The predicate under which `clean_urls` keeps a record:
`validated['url_valid'] | validated['url_missing']`. -/
def urlKeep (check : String → Bool) (r : Record) : Bool :=
  is_valid_url check r.website || url_missing r.website

/-- `URLValidator.clean_urls`: keep the records whose URL is valid or
missing; the records that are neither (`~url_valid & ~url_missing`) form the
returned invalid table.  (The helper flag columns the source adds and drops
again are computed functionally here, so there is nothing to drop.) -/
def clean_urls (check : String → Bool) (tbl : List Record) :
    List Record × List Record :=
  (tbl.filter (fun r => urlKeep check r),
   tbl.filter (fun r => !(urlKeep check r)))

/-! ### Generic partition lemmas shared by the theorems -/

theorem length_filter_add_length_filter_neg {α : Type} (p : α → Bool)
    (l : List α) :
    (l.filter p).length + (l.filter (fun a => !(p a))).length = l.length := by
  induction l with
  | nil => rfl
  | cons a l ih =>
      by_cases h : p a = true <;>
        simp [List.filter_cons, h] <;> omega

theorem count_filter_add_count_filter_neg {α : Type} [DecidableEq α]
    (p : α → Bool) (l : List α) (a : α) :
    (l.filter p).count a + (l.filter (fun x => !(p x))).count a
      = l.count a := by
  by_cases h : p a = true
  · have h2 : (l.filter (fun x => !(p x))).count a = 0 := by
      rw [List.count_eq_zero]
      simp [List.mem_filter, h]
    rw [List.count_filter h, h2]
    omega
  · have h2 : (l.filter p).count a = 0 := by
      rw [List.count_eq_zero]
      simp [List.mem_filter, h]
    have h3 : (l.filter (fun x => !(p x))).count a = l.count a :=
      List.count_filter (by simp [h])
    rw [h2, h3]
    omega

/-- Claim C2: `clean_urls` partitions its input exactly: the two outputs
have lengths summing to the input length, every record occurs in the two
outputs jointly exactly as often as in the input, the cleaned table holds
precisely the records classified valid-or-missing and the invalid table
precisely the rest. -/
theorem clean_urls_partitions (check : String → Bool) (tbl : List Record) :
    ((clean_urls check tbl).1.length + (clean_urls check tbl).2.length
        = tbl.length)
    ∧ (∀ r : Record,
        (clean_urls check tbl).1.count r + (clean_urls check tbl).2.count r
          = tbl.count r)
    ∧ (∀ r : Record,
        r ∈ (clean_urls check tbl).1 ↔ r ∈ tbl ∧ urlKeep check r = true)
    ∧ (∀ r : Record,
        r ∈ (clean_urls check tbl).2 ↔ r ∈ tbl ∧ ¬(urlKeep check r = true)) := by
  refine ⟨length_filter_add_length_filter_neg _ tbl,
    fun r => count_filter_add_count_filter_neg _ tbl r, fun r => ?_, fun r => ?_⟩
  · simp [clean_urls, List.mem_filter]
  · simp [clean_urls, List.mem_filter]

/-- Claim C10: a non-missing, non-string URL value (a bare number in the
URL column) is classified invalid rather than missing: `is_valid_url`
rejects every non-string value, the missing flag is set only for genuinely
missing values, and `clean_urls` therefore removes such records. -/
theorem nonstring_url_classified_invalid (check : String → Bool)
    (tbl : List Record) (r : Record) (q : ℚ)
    (hr : r ∈ tbl) (hw : r.website = Cell.num q) :
    is_valid_url check r.website = false
    ∧ url_missing r.website = false
    ∧ r ∈ (clean_urls check tbl).2
    ∧ r ∉ (clean_urls check tbl).1
    ∧ (∀ c : Cell, url_missing c = true ↔ c = Cell.missing) := by
  have hv : is_valid_url check r.website = false := by rw [hw]; rfl
  have hm : url_missing r.website = false := by rw [hw]; rfl
  refine ⟨hv, hm, ?_, ?_, ?_⟩
  · simp [clean_urls, List.mem_filter, urlKeep, hv, hm, hr]
  · simp [clean_urls, List.mem_filter, urlKeep, hv, hm]
  · intro c
    cases c <;> simp [url_missing]

/-- A record whose URL cell holds the bare number 42. -/
def numUrlRecord : Record :=
  ⟨Cell.missing, Cell.missing, Cell.num 42, Cell.missing, Cell.missing,
   Cell.missing, Cell.missing, []⟩

/-- Witness for C10 at the concrete record `numUrlRecord` inside a
one-record table, with a string-level check that accepts everything. -/
theorem nonstring_url_classified_invalid_witness :
    numUrlRecord ∈ (clean_urls (fun _ => true) [numUrlRecord]).2 :=
  (nonstring_url_classified_invalid (fun _ => true) [numUrlRecord]
    numUrlRecord 42 (by simp) rfl).2.2.1

/-! ## DescriptionValidator -/

/-- The fixed placeholder-phrase list of `DescriptionValidator`. -/
def meaninglessPhrases : List String :=
  ["n/a", "na", "none", "null", "tbd", "tba", "coming soon",
   "no description", "not available", "see website", "lorem ipsum"]

/-- Python `str.strip()`: drop leading and trailing whitespace.  Strings
are worked on as their character lists so that everything reduces in the
kernel. -/
def pyStripChars (cs : List Char) : List Char :=
  ((cs.dropWhile Char.isWhitespace).reverse.dropWhile Char.isWhitespace).reverse

/-- The length of Python `str.split()` with no argument: the number of
maximal non-whitespace runs. -/
def pyWordCountAux : List Char → Bool → Nat
  | [], _ => 0
  | c :: cs, inWord =>
      if c.isWhitespace then pyWordCountAux cs false
      else (if inWord then 0 else 1) + pyWordCountAux cs true

def pyWordCount (cs : List Char) : Nat := pyWordCountAux cs false

/-- Python `pattern in text`: substring containment. -/
def containsSubChars (pat : List Char) : List Char → Bool
  | [] => pat.isEmpty
  | c :: cs => pat.isPrefixOf (c :: cs) || containsSubChars pat cs

/-- The reasons `DescriptionValidator.get_flag_reason` accumulates for a
non-missing description, in source order: `too_short` when the stripped
text is shorter than `min_length`, `few_words` when it has fewer than
`min_words` words, `meaningless` when its lowercase form contains one of
the placeholder phrases. -/
def descReasons (minLength minWords : Nat) (t : String) : List String :=
  let ts := pyStripChars t.data
  (if ts.length < minLength then ["too_short"] else [])
    ++ (if pyWordCount ts < minWords then ["few_words"] else [])
    ++ (if meaninglessPhrases.any
          (fun pat => containsSubChars pat.data (ts.map Char.toLower))
        then ["meaningless"] else [])

/-- `DescriptionValidator.get_flag_reason`: a missing description flags
`missing`; otherwise the accumulated reasons are joined with a comma, and
an empty reasons list yields `none` (acceptable).  The description column
holds text or missing, so the cell is an `Option String` (`str(text)` on a
Python `str` is the identity). -/
def get_flag_reason (minLength minWords : Nat) (d : Option String) :
    Option String :=
  match d with
  | none => some ("missing")
  | some t =>
      let rs := descReasons minLength minWords t
      if rs.isEmpty then none else some (String.intercalate (", ") rs)

/-- Claim C8 counterexample: with min_length=10 and min_words=3, the empty
(non-missing) description does not flag `missing` alone — it flags
`too_short, few_words`. -/
theorem empty_description_not_missing_alone :
    get_flag_reason 10 3 (some ("")) = some ("too_short, few_words")
    ∧ get_flag_reason 10 3 (some ("")) ≠ some ("missing") := by
  refine ⟨by rfl, by decide⟩

/-- Claim C8 (amended): a missing description flags `missing` alone, while
an empty description flags `too_short, few_words`; a non-missing
description carries the comma-joined list of its simultaneous reasons and
yields `none` exactly when no reason applies; `Great tool.` (11 characters,
2 words) with min_length=10 and min_words=3 flags `few_words` but not
`too_short`. -/
theorem get_flag_reason_spec :
    get_flag_reason 10 3 none = some ("missing")
    ∧ get_flag_reason 10 3 (some ("Great tool.")) = some ("few_words")
    ∧ get_flag_reason 10 3 (some ("")) = some ("too_short, few_words")
    ∧ (∀ minL minW : Nat, ∀ t : String,
        (get_flag_reason minL minW (some t) = none
          ↔ descReasons minL minW t = []))
    ∧ (∀ minL minW : Nat, ∀ t : String,
        descReasons minL minW t ≠ []
          → get_flag_reason minL minW (some t)
              = some (String.intercalate (", ") (descReasons minL minW t))) := by
  refine ⟨by rfl, by rfl, by rfl, ?_, ?_⟩
  · intro minL minW t
    simp [get_flag_reason, List.isEmpty_iff]
  · intro minL minW t h
    simp [get_flag_reason, List.isEmpty_iff, h]

/-! ## MissingDataHandler -/

/-- Insert into a sorted list of rationals (ascending). -/
def insertSorted (a : ℚ) : List ℚ → List ℚ
  | [] => [a]
  | b :: bs => if a ≤ b then a :: b :: bs else b :: insertSorted a bs

/-- Ascending sort of a list of rationals (structural insertion sort, so
that concrete instances reduce in the kernel). -/
def sortRat : List ℚ → List ℚ
  | [] => []
  | a :: as => insertSorted a (sortRat as)

/-- `Series.median()` over the non-missing values of a numeric column:
sort ascending; the middle value for an odd count, the mean of the two
middle values for an even count. -/
def pandasMedian (l : List ℚ) : ℚ :=
  let s := sortRat l
  if l.length % 2 = 1 then s.getD (l.length / 2) 0
  else (s.getD (l.length / 2 - 1) 0 + s.getD (l.length / 2) 0) / 2

/-- The fill value `handle_missing_records` computes for a numeric column:
`cleaned[col].median()`, replaced by 0 when it is NaN — i.e. when every
value of the column is missing. -/
def numericFillValue (col : List (Option ℚ)) : ℚ :=
  let vals := col.filterMap id
  if vals.isEmpty then 0 else pandasMedian vals

/-- `cleaned[col].fillna(fill_value)` on a numeric column, applied (as in
the source loop) only when the column has a missing value. -/
def fillNumericColumn (col : List (Option ℚ)) : List (Option ℚ) :=
  if col.any (fun c => c.isNone) then
    col.map (fun c => some (c.getD (numericFillValue col)))
  else col

/-- `Series.mode()[0]` for a text column: a value of maximal multiplicity;
pandas returns the modes sorted ascending, so ties resolve to the
lexicographically smallest. -/
def pandasModeHead (l : List String) : String :=
  let maxCount := l.foldl (fun m v => max m (l.count v)) 0
  let cands := l.filter (fun v => l.count v = maxCount)
  cands.foldl (fun a b => if decide (b < a) then b else a) (cands.headD "")

/-- The fill value for a non-numeric column: the most frequent non-missing
value (`mode_vals[0]`), or the literal `Unknown` when the column has no
non-missing value (`len(mode_vals) == 0`). -/
def textFillValue (col : List (Option String)) : String :=
  let vals := col.filterMap id
  if vals.isEmpty then ("Unknown") else pandasModeHead vals

/-- `fillna` on a non-numeric column. -/
def fillTextColumn (col : List (Option String)) : List (Option String) :=
  if col.any (fun c => c.isNone) then
    col.map (fun c => some (c.getD (textFillValue col)))
  else col

/-- A column of the table with its pandas dtype
(`pd.api.types.is_numeric_dtype`). -/
inductive Column where
  | numeric : List (Option ℚ) → Column
  | textual : List (Option String) → Column
deriving DecidableEq

/-- `MissingDataHandler.handle_missing_records(drop=False)`: the loop
`for col in cleaned.columns` fills every column independently. -/
def handle_missing_records (cols : List Column) : List Column :=
  cols.map (fun c => match c with
    | Column.numeric col => Column.numeric (fillNumericColumn col)
    | Column.textual col => Column.textual (fillTextColumn col))

theorem map_fill_of_no_missing {α : Type} (d : α) (col : List (Option α))
    (h : col.any (fun c => c.isNone) = false) :
    col.map (fun c => some (c.getD d)) = col := by
  induction col with
  | nil => rfl
  | cons c cs ih =>
      simp only [List.any_cons, Bool.or_eq_false_iff] at h
      cases c with
      | none => simp at h
      | some v => simp only [List.map_cons, Option.getD_some, ih h.2]

theorem fillNumericColumn_eq_map (col : List (Option ℚ)) :
    fillNumericColumn col
      = col.map (fun c => some (c.getD (numericFillValue col))) := by
  unfold fillNumericColumn
  by_cases h : col.any (fun c => c.isNone) = true
  · simp [h]
  · simp only [Bool.not_eq_true] at h
    simp [h, map_fill_of_no_missing _ _ h]

theorem fillTextColumn_eq_map (col : List (Option String)) :
    fillTextColumn col
      = col.map (fun c => some (c.getD (textFillValue col))) := by
  unfold fillTextColumn
  by_cases h : col.any (fun c => c.isNone) = true
  · simp [h]
  · simp only [Bool.not_eq_true] at h
    simp [h, map_fill_of_no_missing _ _ h]

/-- Claim C9: the fill strategy (`handle_missing_records` with
`drop=False`) fills each column independently; in a numeric column every
missing entry becomes the column's median over non-missing values (the
column `[10, missing, 20]` becomes `[10, 15, 20]`) and the fill value
defaults to 0 when the entire column is missing; in a non-numeric column
every missing entry becomes the most frequent non-missing value, defaulting
to the literal `Unknown` when no non-missing value exists; non-missing
entries are never changed. -/
theorem handle_missing_fill_spec :
    (fillNumericColumn [some 10, none, some 20] = [some 10, some 15, some 20])
    ∧ (∀ col : List (Option ℚ),
        fillNumericColumn col
          = col.map (fun c => some (c.getD (numericFillValue col))))
    ∧ (∀ col : List (Option ℚ),
        col.filterMap id = [] → numericFillValue col = 0)
    ∧ (∀ col : List (Option ℚ),
        col.filterMap id ≠ [] →
          numericFillValue col = pandasMedian (col.filterMap id))
    ∧ (∀ col : List (Option String),
        fillTextColumn col
          = col.map (fun c => some (c.getD (textFillValue col))))
    ∧ (∀ col : List (Option String),
        col.filterMap id = [] → textFillValue col = ("Unknown"))
    ∧ (∀ col : List (Option String),
        col.filterMap id ≠ [] →
          textFillValue col = pandasModeHead (col.filterMap id))
    ∧ (∀ cols : List Column, ∀ i : Nat, i < cols.length →
        (handle_missing_records cols).getD i (Column.numeric [])
          = (match cols.getD i (Column.numeric []) with
             | Column.numeric col => Column.numeric (fillNumericColumn col)
             | Column.textual col => Column.textual (fillTextColumn col))) := by
  have hfv : numericFillValue [some 10, none, some 20] = 15 := by
    norm_num [numericFillValue, pandasMedian, sortRat, insertSorted,
      List.filterMap_cons, List.filterMap_nil, id]
  refine ⟨?_, fillNumericColumn_eq_map, ?_, ?_,
    fillTextColumn_eq_map, ?_, ?_, ?_⟩
  · rw [fillNumericColumn_eq_map]
    norm_num [hfv]
  · intro col h
    simp [numericFillValue, h]
  · intro col h
    simp [numericFillValue, h, List.isEmpty_iff]
  · intro col h
    simp [textFillValue, h]
  · intro col h
    simp [textFillValue, h, List.isEmpty_iff]
  · intro cols i hi
    simp [handle_missing_records, List.getD_eq_getElem?_getD,
      List.getElem?_map, hi, List.getElem?_eq_getElem]

/-! ## YearValidator -/

/-- The numeric value of a list of decimal digits. -/
def digitsToNat (cs : List Char) : Nat :=
  cs.foldl (fun a c => a * 10 + (c.toNat - ('0').toNat)) 0

def allDigits (cs : List Char) : Bool := cs.all (fun c => c.isDigit)

/-- Python `int(float(text))` for the decimal forms that occur in year
data: surrounding whitespace stripped, an optional sign, digits with at
most one decimal point, the value truncated toward zero (so the signed
integer part).  Exotic accepted forms of `float` — exponents, `inf`/`nan`,
underscores — are not modelled and count as parse failures here; every use
in the source truncates the float immediately, so the parse is composed
with `int(...)`. -/
def parseYearInt (s : String) : Option Int :=
  let cs := pyStripChars s.data
  let sb : Int × List Char :=
    match cs with
    | c :: rest =>
        if c = '-' then (-1, rest)
        else if c = '+' then (1, rest) else (1, cs)
    | [] => (1, cs)
  let ip := sb.2.takeWhile (fun c => c != '.')
  let rest := sb.2.dropWhile (fun c => c != '.')
  match rest with
  | [] =>
      if allDigits ip && !(ip.isEmpty) then
        some (sb.1 * Int.ofNat (digitsToNat ip))
      else none
  | _ :: frac =>
      if allDigits ip && allDigits frac && !(ip.isEmpty && frac.isEmpty) then
        some (sb.1 * Int.ofNat (digitsToNat ip))
      else none

/-- Python `int(x)` on a float: truncation toward zero. -/
def truncQ (q : ℚ) : Int := Int.tdiv q.num (Int.ofNat q.den)

/-- `int(float(...))` applied to a year cell: a numeric cell is truncated
toward zero, a text cell is parsed, `none` marking the raised-and-caught
conversion error. -/
def cellYearInt : Cell → Option Int
  | Cell.num q => some (truncQ q)
  | Cell.str s => parseYearInt s
  | Cell.missing => none

/-- `YearValidator.is_valid_year`: `None` for missing (not invalid);
otherwise `int(float(year))` must lie within `[min_year, max_year]`, a
parse failure giving `False`. -/
def is_valid_year (minY maxY : Int) (c : Cell) : Option Bool :=
  match c with
  | Cell.missing => none
  | _ =>
      match cellYearInt c with
      | some y => some (decide (minY ≤ y ∧ y ≤ maxY))
      | none => some false

/-- The `year_issue` categorisation of `YearValidator.validate_years`
(inner `categorize_invalid`): `missing` first, then the `is_valid_year`
flag, then the parsed value against the bounds; the final `invalid` branch
of the source is unreachable but kept. -/
def year_issue (minY maxY : Int) (c : Cell) : String :=
  if c = Cell.missing then ("missing")
  else if is_valid_year minY maxY c = some true then ("valid")
  else
    match cellYearInt c with
    | some y =>
        if maxY < y then ("future")
        else if y < minY then ("too_old")
        else ("invalid")
    | none => ("non_numeric")

/-- Claim C5: `validate_years` classifies a missing launch year as
`missing`; a value that fails the numeric parse as `non_numeric`; a parsed
(truncated) value above `max_year` as `future`; one below `min_year` as
`too_old`; and otherwise as `valid`. -/
theorem year_issue_spec (minY maxY : Int) :
    (year_issue minY maxY Cell.missing = ("missing"))
    ∧ (∀ s : String, parseYearInt s = none →
        year_issue minY maxY (Cell.str s) = ("non_numeric"))
    ∧ (∀ c : Cell, ∀ y : Int, cellYearInt c = some y → maxY < y →
        year_issue minY maxY c = ("future"))
    ∧ (∀ c : Cell, ∀ y : Int, cellYearInt c = some y → y < minY →
        minY ≤ maxY → year_issue minY maxY c = ("too_old"))
    ∧ (∀ c : Cell, ∀ y : Int, cellYearInt c = some y →
        minY ≤ y → y ≤ maxY → year_issue minY maxY c = ("valid")) := by
  refine ⟨rfl, ?_, ?_, ?_, ?_⟩
  · intro s h
    simp [year_issue, is_valid_year, cellYearInt, h]
  · intro c y h hy
    have hnv : ¬(minY ≤ y ∧ y ≤ maxY) := by omega
    cases c with
    | missing => simp [cellYearInt] at h
    | str s =>
        simp [year_issue, is_valid_year, cellYearInt] at h ⊢
        simp [h, hnv, hy]
    | num q =>
        simp [year_issue, is_valid_year, cellYearInt] at h ⊢
        simp [h, hnv, hy]
  · intro c y h hy hb
    have hnv : ¬(minY ≤ y ∧ y ≤ maxY) := by omega
    have hnf : ¬(maxY < y) := by omega
    cases c with
    | missing => simp [cellYearInt] at h
    | str s =>
        simp [year_issue, is_valid_year, cellYearInt] at h ⊢
        simp [h, hnv, hy, hnf]
    | num q =>
        simp [year_issue, is_valid_year, cellYearInt] at h ⊢
        simp [h, hnv, hy, hnf]
  · intro c y h h1 h2
    cases c with
    | missing => simp [cellYearInt] at h
    | str s =>
        simp [year_issue, is_valid_year, cellYearInt] at h ⊢
        simp [h, h1, h2]
    | num q =>
        simp [year_issue, is_valid_year, cellYearInt] at h ⊢
        simp [h, h1, h2]

/-- Witness for C5 at the concrete inputs of the specification: bounds
[2015, 2026], the values missing, `abc`, `2031`, `2010` and `2020`. -/
theorem year_issue_spec_witness :
    year_issue 2015 2026 Cell.missing = ("missing")
    ∧ year_issue 2015 2026 (Cell.str ("abc")) = ("non_numeric")
    ∧ year_issue 2015 2026 (Cell.str ("2031")) = ("future")
    ∧ year_issue 2015 2026 (Cell.str ("2010")) = ("too_old")
    ∧ year_issue 2015 2026 (Cell.str ("2020")) = ("valid") :=
  ⟨(year_issue_spec 2015 2026).1,
   (year_issue_spec 2015 2026).2.1 ("abc") (by decide),
   (year_issue_spec 2015 2026).2.2.1 (Cell.str ("2031")) 2031 (by decide)
     (by decide),
   (year_issue_spec 2015 2026).2.2.2.1 (Cell.str ("2010")) 2010 (by decide)
     (by decide) (by decide),
   (year_issue_spec 2015 2026).2.2.2.2 (Cell.str ("2020")) 2020 (by decide)
     (by decide) (by decide)⟩

/-- The 2-digit-year expansion of `correct_years`: values at most
`max_year % 100` map to the 2000s, the rest to the 1900s. -/
def twoDigitExpand (maxY y : Int) : Int :=
  if y ≤ maxY % 100 then 2000 + y else 1900 + y

/-- The `0 <= year_int <= 99` step of `correct_years`: a 2-digit year is
expanded, anything else is passed through. -/
def expandIfTwoDigit (maxY y0 : Int) : Int :=
  if 0 ≤ y0 ∧ y0 ≤ 99 then twoDigitExpand maxY y0 else y0

/-- One row of `YearValidator.correct_years`: the possibly corrected cell
and the (original, corrected) pair when a correction is applied.  A missing
year (`pd.isna` skip) or an unparsable one (`except` skip) is passed
through unchanged; a parsed year in [0, 99] is expanded; a value above
`max_year` after that is left alone (`continue`); the correction is written
and logged only when it changed the value and lies within
`[min_year, max_year]`.  (The log's `tool` field is reporting only and is
not modelled.) -/
def correctCell (minY maxY : Int) (c : Cell) : Cell × Option (Int × Int) :=
  match cellYearInt c with
  | none => (c, none)
  | some y0 =>
      if maxY < expandIfTwoDigit maxY y0 then (c, none)
      else if expandIfTwoDigit maxY y0 ≠ y0
          ∧ minY ≤ expandIfTwoDigit maxY y0
          ∧ expandIfTwoDigit maxY y0 ≤ maxY then
        (Cell.num ((expandIfTwoDigit maxY y0 : Int) : ℚ),
         some (y0, expandIfTwoDigit maxY y0))
      else (c, none)

/-- `YearValidator.correct_years` on the launch-year column: the corrected
column and the corrections log as (row index, original, corrected)
triples, in row order. -/
def correct_years (minY maxY : Int) (col : List Cell) :
    List Cell × List (Nat × Int × Int) :=
  (col.map (fun c => (correctCell minY maxY c).1),
   (List.range col.length).filterMap (fun i =>
     ((correctCell minY maxY (col.getD i Cell.missing)).2).map
       (fun oc => (i, oc.1, oc.2))))

/-- Claim C7 counterexample: with bounds [2015, 2026] the 2-digit year 85
expands to 1985, which does not exceed max_year and differs from 85, yet
`correct_years` leaves the value uncorrected and logs nothing — the
expansion is only applied when it also clears min_year. -/
theorem correct_years_claim_counterexample :
    correct_years 2015 2026 [Cell.str ("85")] = ([Cell.str ("85")], [])
    ∧ twoDigitExpand 2026 85 = 1985
    ∧ ((1985 : Int) ≤ 2026 ∧ (1985 : Int) ≠ 85) := by
  refine ⟨?_, by decide, by decide⟩
  have h : correctCell 2015 2026 (Cell.str ("85")) = (Cell.str ("85"), none) := by
    decide
  simp [correct_years, h]

theorem getD_map_lt {α β : Type} (f : α → β) (l : List α) (i : Nat)
    (d : α) (d2 : β) (hi : i < l.length) :
    (l.map f).getD i d2 = f (l.getD i d) := by
  simp [List.getD_eq_getElem?_getD, List.getElem?_map,
    List.getElem?_eq_getElem, hi]

theorem correct_years_log_mem (minY maxY : Int) (col : List Cell) (i : Nat)
    (y e : Int) (hi : i < col.length)
    (h : (correctCell minY maxY (col.getD i Cell.missing)).2 = some (y, e)) :
    (i, y, e) ∈ (correct_years minY maxY col).2 := by
  unfold correct_years
  refine List.mem_filterMap.mpr ⟨i, List.mem_range.mpr hi, ?_⟩
  rw [h]
  rfl

theorem correctCell_changed (minY maxY : Int) (c : Cell)
    (h : (correctCell minY maxY c).1 ≠ c) :
    ∃ y e : Int, (correctCell minY maxY c).2 = some (y, e)
      ∧ (correctCell minY maxY c).1 = Cell.num (e : ℚ) := by
  unfold correctCell at h ⊢
  cases hp : cellYearInt c with
  | none => rw [hp] at h; simp at h
  | some y0 =>
      simp only [hp] at h ⊢
      by_cases h1 : maxY < expandIfTwoDigit maxY y0
      · rw [if_pos h1] at h; simp at h
      · rw [if_neg h1] at h ⊢
        by_cases h2 : expandIfTwoDigit maxY y0 ≠ y0
            ∧ minY ≤ expandIfTwoDigit maxY y0
            ∧ expandIfTwoDigit maxY y0 ≤ maxY
        · rw [if_pos h2] at h ⊢
          exact ⟨y0, expandIfTwoDigit maxY y0, rfl, rfl⟩
        · rw [if_neg h2] at h; simp at h

/-- Claim C7 (amended): for a row whose launch-year value parses to an
integer y in [0, 99], `correct_years` computes the 2-digit expansion e
(y at most max_year mod 100 maps to 2000 + y, else 1900 + y) and applies
it only when e lies within [min_year, max_year] — expansions above
max_year, and equally those below min_year, are left uncorrected; every
applied correction is recorded in the log as an (original, corrected) pair
at the row's index, and any changed cell corresponds to a logged pair. -/
theorem correct_years_spec (minY maxY : Int) (col : List Cell) (i : Nat)
    (hi : i < col.length) :
    (∀ y : Int, cellYearInt (col.getD i Cell.missing) = some y →
      0 ≤ y → y ≤ 99 →
      ((minY ≤ twoDigitExpand maxY y ∧ twoDigitExpand maxY y ≤ maxY
          ∧ twoDigitExpand maxY y ≠ y →
        (correct_years minY maxY col).1.getD i Cell.missing
            = Cell.num ((twoDigitExpand maxY y : Int) : ℚ)
          ∧ (i, y, twoDigitExpand maxY y) ∈ (correct_years minY maxY col).2)
       ∧ (¬(minY ≤ twoDigitExpand maxY y ∧ twoDigitExpand maxY y ≤ maxY) →
          (correct_years minY maxY col).1.getD i Cell.missing
            = col.getD i Cell.missing)))
    ∧ ((correct_years minY maxY col).1.getD i Cell.missing
          ≠ col.getD i Cell.missing →
        ∃ y e : Int, (i, y, e) ∈ (correct_years minY maxY col).2
          ∧ (correct_years minY maxY col).1.getD i Cell.missing
              = Cell.num (e : ℚ)) := by
  have hmap : (correct_years minY maxY col).1.getD i Cell.missing
      = (correctCell minY maxY (col.getD i Cell.missing)).1 :=
    getD_map_lt _ col i Cell.missing Cell.missing hi
  constructor
  · intro y hy h0 h99
    have hee : expandIfTwoDigit maxY y = twoDigitExpand maxY y :=
      if_pos ⟨h0, h99⟩
    constructor
    · intro ⟨he1, he2, he3⟩
      have hif : correctCell minY maxY (col.getD i Cell.missing)
          = (Cell.num ((twoDigitExpand maxY y : Int) : ℚ),
             some (y, twoDigitExpand maxY y)) := by
        unfold correctCell
        simp only [hy]
        rw [hee, if_neg (not_lt.mpr he2), if_pos ⟨he3, he1, he2⟩]
      refine ⟨by rw [hmap, hif], ?_⟩
      exact correct_years_log_mem minY maxY col i y (twoDigitExpand maxY y) hi
        (by rw [hif])
    · intro hne
      rw [hmap]
      unfold correctCell
      simp only [hy]
      rw [hee]
      by_cases hf : maxY < twoDigitExpand maxY y
      · rw [if_pos hf]
      · rw [if_neg hf,
          if_neg (fun hx => hne ⟨hx.2.1, hx.2.2⟩)]
  · intro hne
    rw [hmap] at hne ⊢
    obtain ⟨y, e, h1, h2⟩ := correctCell_changed minY maxY _ hne
    exact ⟨y, e, correct_years_log_mem minY maxY col i y e hi h1, h2⟩

/-- Witness for C7 at the concrete input `17` with bounds [2015, 2026]:
the expansion 2017 is in range, so the cell is corrected and the pair
(17, 2017) is logged at row 0. -/
theorem correct_years_spec_witness :
    (correct_years 2015 2026 [Cell.str ("17")]).1.getD 0 Cell.missing
        = Cell.num ((twoDigitExpand 2026 17 : Int) : ℚ)
    ∧ ((0 : Nat), (17 : Int), twoDigitExpand 2026 17)
        ∈ (correct_years 2015 2026 [Cell.str ("17")]).2 :=
  ((correct_years_spec 2015 2026 [Cell.str ("17")] 0 (by decide)).1 17
    (by decide) (by decide) (by decide)).1 (by refine ⟨?_, ?_, ?_⟩ <;> decide)

/-! ## NumericValidator -/

/-- `Series.astype(int)` on the review-count column: pandas raises
(`Cannot convert non-finite values (NA or inf) to integer`) whenever the
column holds a NaN, and the conversion also fails on non-numeric values;
a numeric value is truncated toward zero. -/
def astypeInt (col : List Cell) : Except String (List Int) :=
  if col.all (fun c => match c with | Cell.num _ => true | _ => false) then
    Except.ok (col.filterMap (fun c => match c with
      | Cell.num q => some (truncQ q)
      | _ => none))
  else
    Except.error ("Cannot convert non-finite values (NA or inf) to integer")

/-- The review mask of `validate_reviews` / `flag_records` on one value,
in the surviving (all-numeric) case: negative or non-integral —
`(reviews < 0) | (reviews != reviews.astype(int))`, `& reviews.notna()`. -/
def invalidReview : Cell → Bool
  | Cell.num q => decide (q < 0) || decide (q ≠ ((truncQ q : Int) : ℚ))
  | _ => false

/-- `NumericValidator.validate_reviews`: `reviews.astype(int)` is computed
on the whole column before the mask — so one missing review count makes
the method raise — and the surviving case returns the records whose
review count is negative or non-integral. -/
def validate_reviews (tbl : List Record) : Except String (List Record) :=
  match astypeInt (tbl.map (fun r => r.reviewCount)) with
  | Except.error e => Except.error e
  | Except.ok _ =>
      Except.ok (tbl.filter (fun r => invalidReview r.reviewCount))

/-- The rating mask of `validate_ratings` / `flag_records` on one value:
`((ratings < rating_min) | (ratings > rating_max)) & ratings.notna()` —
comparisons against NaN are false in pandas and the mask exempts missing,
so only a numeric out-of-bounds rating is flagged. -/
def invalidRating (rmin rmax : ℚ) : Cell → Bool
  | Cell.num q => decide (q < rmin) || decide (rmax < q)
  | _ => false

/-- `NumericValidator.validate_ratings`: the records whose rating falls
outside the bounds, missing exempt; no conversion is involved, so no
exception is possible here. -/
def validate_ratings (rmin rmax : ℚ) (tbl : List Record) : List Record :=
  tbl.filter (fun r => invalidRating rmin rmax r.averageRating)

/-- `NumericValidator.flag_records`: attaches the two flag booleans per
record; the review flag computes `reviews.astype(int)` and therefore
raises as soon as any review count is missing. -/
def flag_records (rmin rmax : ℚ) (tbl : List Record) :
    Except String (List (Record × Bool × Bool)) :=
  match astypeInt (tbl.map (fun r => r.reviewCount)) with
  | Except.error e => Except.error e
  | Except.ok _ =>
      Except.ok (tbl.map (fun r =>
        (r, invalidRating rmin rmax r.averageRating,
         invalidReview r.reviewCount)))

/-- A record with rating 5.5 and a missing review count. -/
def missingReviewRecord : Record :=
  ⟨Cell.missing, Cell.missing, Cell.missing, Cell.missing, Cell.missing,
   Cell.num (11 / 2), Cell.missing, []⟩

/-- Claim C3 (code bug): a rating of 5.5 with bounds [0, 5] is reported
through the outcome model by `validate_ratings` without an exception, and
a missing rating is never flagged; but `validate_reviews` and
`flag_records` raise whenever any review count is missing — the
`reviews.astype(int)` call fails on NaN before the mask (whose `notna()`
conjunct shows the intent to exempt missing) is ever evaluated. -/
theorem numeric_validator_raises_on_missing_review :
    validate_reviews [missingReviewRecord]
        = Except.error ("Cannot convert non-finite values (NA or inf) to integer")
    ∧ flag_records 0 5 [missingReviewRecord]
        = Except.error ("Cannot convert non-finite values (NA or inf) to integer")
    ∧ validate_ratings 0 5 [missingReviewRecord] = [missingReviewRecord]
    ∧ invalidRating 0 5 Cell.missing = false := by
  refine ⟨rfl, rfl, ?_, rfl⟩
  have hq : (5 : ℚ) < 11 / 2 := by norm_num
  have hp : invalidRating 0 5 (Cell.num (11 / 2)) = true := by
    simp [invalidRating, hq]
  simp [validate_ratings, missingReviewRecord, List.filter_cons, hp]

/-! ## DuplicateHandler -/

/-- The identity key of a record: the (`Tool Name`, `Company`, `Website`)
triple.  Both `df.duplicated(subset=keys, keep=False)` and
`groupby(keys, dropna=False)` treat NaN as equal to NaN, which plain
`Cell` equality gives. -/
def keyOf (r : Record) : Cell × Cell × Cell :=
  (r.toolName, r.company, r.website)

/-- The identity key of row `i`. -/
def keyAt (tbl : List Record) (i : Nat) : Cell × Cell × Cell :=
  keyOf (tbl.getD i default)

/-- Whether row `i` is marked by `df.duplicated(subset=keys, keep=False)`:
some other row carries the same identity key. -/
def hasDupKey (tbl : List Record) (i : Nat) : Bool :=
  (List.range tbl.length).any
    (fun j => j != i && (keyAt tbl j == keyAt tbl i))

/-- The row positions of `find_duplicates`, in table order. -/
def dupIndices (tbl : List Record) : List Nat :=
  (List.range tbl.length).filter (fun i => hasDupKey tbl i)

/-- The duplicate group of key `k` (one `groupby(keys, dropna=False)`
group), as row positions in table order — `groupby` preserves the
within-group row order. -/
def groupIdx (tbl : List Record) (k : Cell × Cell × Cell) : List Nat :=
  (dupIndices tbl).filter (fun i => keyAt tbl i == k)

/-- The records of the duplicate group of key `k`, in table order. -/
def groupRecs (tbl : List Record) (k : Cell × Cell × Cell) : List Record :=
  (groupIdx tbl k).map (fun i => tbl.getD i default)

/-- `fillna(0)` on a score component.  The score columns are numeric in
pandas, so a value is a number or NaN; `NumericWF` below records that
assumption (a text value there would make the source's score sum fail). -/
def Cell.fillna0 : Cell → ℚ
  | Cell.num q => q
  | _ => 0

/-- `group.notna().sum(axis=1)`: the number of non-missing fields of the
row. -/
def completeness (r : Record) : Nat :=
  (([r.toolName, r.company, r.website, r.launchYear, r.reviewCount,
     r.averageRating, r.description] ++ r.extras).filter
    (fun c => c != Cell.missing)).length

/-- The position-free part of the `rank_records` score: completeness plus
review count, average rating and launch year, missing counted as 0. -/
def baseScore (r : Record) : ℚ :=
  (completeness r : ℚ) + Cell.fillna0 r.reviewCount
    + Cell.fillna0 r.averageRating + Cell.fillna0 r.launchYear

/-- `scores.sum(axis=1)` over one group: the base score of each row minus
its 0-based position in the group (`-np.arange(len(group))`). -/
def groupScores (g : List Record) : List ℚ :=
  (List.range g.length).map (fun i => baseScore (g.getD i default) - (i : ℚ))

/-- `Series.idxmax`: the first position of the maximum. -/
def idxmaxList : List ℚ → Nat
  | [] => 0
  | [_] => 0
  | x :: y :: ys =>
      if (y :: ys).getD (idxmaxList (y :: ys)) 0 > x then
        idxmaxList (y :: ys) + 1
      else 0

/-- `DuplicateHandler.rank_records` on one group, as the group-local
position of the selected row (the source returns the row label; positions
translate back through `groupIdx`). -/
def rank_records (g : List Record) : Nat := idxmaxList (groupScores g)

/-- The table position `rank_records` selects for the group of key `k`. -/
def winnerIdx (tbl : List Record) (k : Cell × Cell × Cell) : Nat :=
  (groupIdx tbl k).getD (rank_records (groupRecs tbl k)) 0

/-- Whether row `i` survives `remove_duplicates`:
`~df.index.isin(dupes.index) | df.index.isin(keep_indices)`.  A row is in
`keep_indices` iff it is the winner of some group, and a winner's key is
its group's key, so this is: not a duplicate, or the winner of its own
key's group. -/
def keepRow (tbl : List Record) (i : Nat) : Bool :=
  !(hasDupKey tbl i) || (i == winnerIdx tbl (keyAt tbl i))

/-- `DuplicateHandler.remove_duplicates`: with no duplicates the table
comes back unchanged with an empty removed table (`if dupes.empty`);
otherwise the best row of each duplicate group is kept and the other
duplicate rows are removed, both outputs preserving table order. -/
def remove_duplicates (tbl : List Record) : List Record × List Record :=
  if dupIndices tbl = [] then (tbl, [])
  else
    (((List.range tbl.length).filter (fun i => keepRow tbl i)).map
        (fun i => tbl.getD i default),
     ((List.range tbl.length).filter (fun i => !(keepRow tbl i))).map
        (fun i => tbl.getD i default))

/-- The well-formedness the score sum needs: the three numeric score
columns hold numbers or missing. -/
def numericCell : Cell → Bool
  | Cell.str _ => false
  | _ => true

def NumericWF (tbl : List Record) : Prop :=
  ∀ r ∈ tbl, numericCell r.reviewCount = true
    ∧ numericCell r.averageRating = true
    ∧ numericCell r.launchYear = true

instance (tbl : List Record) : Decidable (NumericWF tbl) := by
  unfold NumericWF
  infer_instance

theorem idxmaxList_lt_length (l : List ℚ) (h : l ≠ []) :
    idxmaxList l < l.length := by
  induction l with
  | nil => exact absurd rfl h
  | cons x xs ih =>
      cases xs with
      | nil => simp [idxmaxList]
      | cons y ys =>
          rw [idxmaxList]
          by_cases hc : (y :: ys).getD (idxmaxList (y :: ys)) 0 > x
          · rw [if_pos hc]
            have := ih (by simp)
            simpa [Nat.succ_lt_succ_iff] using this
          · rw [if_neg hc]
            simp

theorem idxmaxList_is_max (l : List ℚ) (i : Nat) (hi : i < l.length) :
    l.getD i 0 ≤ l.getD (idxmaxList l) 0 := by
  induction l generalizing i with
  | nil => simp at hi
  | cons x xs ih =>
      cases xs with
      | nil =>
          cases i with
          | zero => simp [idxmaxList]
          | succ i => simp at hi
      | cons y ys =>
          rw [idxmaxList]
          by_cases hc : (y :: ys).getD (idxmaxList (y :: ys)) 0 > x
          · rw [if_pos hc]
            cases i with
            | zero =>
                simpa using le_of_lt hc
            | succ i =>
                rw [List.getD_cons_succ, List.getD_cons_succ]
                exact ih i (by simpa using hi)
          · rw [if_neg hc]
            push_neg at hc
            cases i with
            | zero => simp
            | succ i =>
                rw [List.getD_cons_succ, List.getD_cons_zero]
                exact le_trans (ih i (by simpa using hi)) hc

theorem getD_eq_getElem_lt {α : Type} (l : List α) (i : Nat) (d : α)
    (hi : i < l.length) : l.getD i d = l[i] := by
  simp [List.getD_eq_getElem?_getD, List.getElem?_eq_getElem, hi]

theorem getD_lt_mem {α : Type} (l : List α) (i : Nat) (d : α)
    (hi : i < l.length) : l.getD i d ∈ l := by
  rw [getD_eq_getElem_lt l i d hi]
  exact List.getElem_mem hi

theorem getD_range_map (f : Nat → ℚ) (n i : Nat) (hi : i < n) :
    ((List.range n).map f).getD i 0 = f i := by
  simp [List.getD_eq_getElem?_getD, List.getElem?_map,
    List.getElem?_range, hi]

theorem hasDupKey_iff (tbl : List Record) (i : Nat) :
    hasDupKey tbl i = true
      ↔ ∃ j, j < tbl.length ∧ j ≠ i ∧ keyAt tbl j = keyAt tbl i := by
  unfold hasDupKey
  rw [List.any_eq_true]
  constructor
  · rintro ⟨j, hj, hp⟩
    rw [Bool.and_eq_true, bne_iff_ne, beq_iff_eq] at hp
    exact ⟨j, List.mem_range.mp hj, hp.1, hp.2⟩
  · rintro ⟨j, hj, hne, hk⟩
    exact ⟨j, List.mem_range.mpr hj,
      by rw [Bool.and_eq_true, bne_iff_ne, beq_iff_eq]; exact ⟨hne, hk⟩⟩

/-- All identity keys of the table are pairwise distinct. -/
def KeysDistinct (t : List Record) : Prop :=
  ∀ i j, i < t.length → j < t.length → i ≠ j → keyAt t i ≠ keyAt t j

theorem hasDupKey_false_of_distinct (t : List Record) (h : KeysDistinct t)
    (i : Nat) (hi : i < t.length) : hasDupKey t i = false := by
  rw [Bool.eq_false_iff]
  intro hc
  obtain ⟨j, hj, hne, hk⟩ := (hasDupKey_iff t i).mp hc
  exact h j i hj hi hne hk

theorem remove_duplicates_of_distinct (t : List Record)
    (h : KeysDistinct t) : remove_duplicates t = (t, []) := by
  have hd : dupIndices t = [] := by
    unfold dupIndices
    rw [List.filter_eq_nil_iff]
    intro i hi
    rw [List.mem_range] at hi
    simp [hasDupKey_false_of_distinct t h i hi]
  rw [remove_duplicates, if_pos hd]

theorem winnerIdx_mem (tbl : List Record) (k : Cell × Cell × Cell)
    (h : groupIdx tbl k ≠ []) : winnerIdx tbl k ∈ groupIdx tbl k := by
  unfold winnerIdx
  apply getD_lt_mem
  have h1 : (groupRecs tbl k).length = (groupIdx tbl k).length := by
    simp [groupRecs]
  have h2 : (groupScores (groupRecs tbl k)).length
      = (groupRecs tbl k).length := by
    simp [groupScores]
  have h3 : groupScores (groupRecs tbl k) ≠ [] := by
    intro hc
    apply h
    have := congrArg List.length hc
    rw [h2, h1] at this
    exact List.length_eq_zero.mp this
  have := idxmaxList_lt_length _ h3
  rw [h2, h1] at this
  exact this

theorem groupIdx_mem_facts (tbl : List Record) (k : Cell × Cell × Cell)
    (i : Nat) (h : i ∈ groupIdx tbl k) :
    i < tbl.length ∧ hasDupKey tbl i = true ∧ keyAt tbl i = k := by
  unfold groupIdx at h
  rw [List.mem_filter] at h
  obtain ⟨hd, hk⟩ := h
  unfold dupIndices at hd
  rw [List.mem_filter] at hd
  exact ⟨List.mem_range.mp hd.1, by simpa using hd.2, by simpa using hk⟩

theorem keepRow_winner (tbl : List Record) (k : Cell × Cell × Cell)
    (h : groupIdx tbl k ≠ []) : keepRow tbl (winnerIdx tbl k) = true := by
  obtain ⟨hlt, hdup, hkey⟩ :=
    groupIdx_mem_facts tbl k (winnerIdx tbl k) (winnerIdx_mem tbl k h)
  unfold keepRow
  rw [hkey]
  simp

theorem keepRow_loser (tbl : List Record) (k : Cell × Cell × Cell)
    (i : Nat) (h : i ∈ groupIdx tbl k) (hne : i ≠ winnerIdx tbl k) :
    keepRow tbl i = false := by
  obtain ⟨hlt, hdup, hkey⟩ := groupIdx_mem_facts tbl k i h
  unfold keepRow
  rw [hkey, hdup]
  simpa using hne

theorem keepRow_key_inj (tbl : List Record) (a b : Nat)
    (ha : a < tbl.length) (hb : b < tbl.length)
    (hka : keepRow tbl a = true) (hkb : keepRow tbl b = true)
    (hab : a ≠ b) : keyAt tbl a ≠ keyAt tbl b := by
  intro hk
  have hda : hasDupKey tbl a = true :=
    (hasDupKey_iff tbl a).mpr ⟨b, hb, fun hc => hab hc.symm, hk.symm⟩
  have hdb : hasDupKey tbl b = true :=
    (hasDupKey_iff tbl b).mpr ⟨a, ha, hab, hk⟩
  unfold keepRow at hka hkb
  rw [hda] at hka
  rw [hdb] at hkb
  simp at hka hkb
  rw [hk] at hka
  exact hab (hka.trans hkb.symm)

theorem cleaned_keys_distinct (tbl : List Record) :
    KeysDistinct (remove_duplicates tbl).1 := by
  by_cases hd : dupIndices tbl = []
  · rw [remove_duplicates, if_pos hd]
    intro i j hi hj hij hk
    have hdup : hasDupKey tbl i = true :=
      (hasDupKey_iff tbl i).mpr ⟨j, hj, fun hc => hij hc.symm, hk.symm⟩
    have : i ∈ dupIndices tbl := by
      unfold dupIndices
      rw [List.mem_filter, List.mem_range]
      exact ⟨hi, by simpa using hdup⟩
    rw [hd] at this
    simp at this
  · rw [remove_duplicates, if_neg hd]
    intro i j hi hj hij
    simp only [List.length_map] at hi hj
    set pos := (List.range tbl.length).filter (fun i => keepRow tbl i) with hpos
    have hfact : ∀ m, m ∈ pos → m < tbl.length ∧ keepRow tbl m = true := by
      intro m hm
      rw [hpos, List.mem_filter, List.mem_range] at hm
      exact ⟨hm.1, by simpa using hm.2⟩
    have hmapi : (pos.map (fun i => tbl.getD i default)).getD i default
        = tbl.getD (pos.getD i 0) default := getD_map_lt _ pos i 0 default hi
    have hmapj : (pos.map (fun i => tbl.getD i default)).getD j default
        = tbl.getD (pos.getD j 0) default := getD_map_lt _ pos j 0 default hj
    unfold keyAt
    rw [hmapi, hmapj]
    have hai := hfact _ (getD_lt_mem pos i 0 hi)
    have haj := hfact _ (getD_lt_mem pos j 0 hj)
    have hne2 : pos.getD i 0 ≠ pos.getD j 0 := by
      rw [getD_eq_getElem_lt pos i 0 hi, getD_eq_getElem_lt pos j 0 hj]
      intro hc
      have hnd : pos.Nodup := List.Nodup.filter _ (List.nodup_range _)
      exact hij (hnd.getElem_inj_iff.mp hc)
    exact keepRow_key_inj tbl _ _ hai.1 haj.1 hai.2 haj.2 hne2

/-- Claim C6: `remove_duplicates` is idempotent — on its own cleaned
table it removes nothing further, because the cleaned table has pairwise
distinct identity keys and hence no duplicate group of size ≥ 2.
(`NumericWF` records the numeric dtype of the score columns that the
source's score sum relies on.) -/
theorem remove_duplicates_idempotent (tbl : List Record)
    (_hwf : NumericWF tbl) :
    remove_duplicates ((remove_duplicates tbl).1)
      = ((remove_duplicates tbl).1, []) :=
  remove_duplicates_of_distinct _ (cleaned_keys_distinct tbl)

theorem groupRecs_length (tbl : List Record) (k : Cell × Cell × Cell) :
    (groupRecs tbl k).length = (groupIdx tbl k).length := by
  simp [groupRecs]

theorem groupScores_length (g : List Record) :
    (groupScores g).length = g.length := by
  simp [groupScores]

theorem dupIndices_ne_of_group (tbl : List Record)
    (k : Cell × Cell × Cell) (h : groupIdx tbl k ≠ []) :
    dupIndices tbl ≠ [] := by
  intro hc
  apply h
  unfold groupIdx
  rw [hc]
  rfl

/-- Claim C1: in every duplicate group of size ≥ 2, the row selected by
`rank_records` — and retained by `remove_duplicates` — has a composite
score (completeness + reviews + rating + recency − 0-based position in
the group, missing numeric components counted 0) at least as large as
every other member's; a tie on all position-free score components is won
by the earliest row in table order; the selected record survives in the
cleaned table and every other group member goes to the removed table. -/
theorem rank_retains_max_score (tbl : List Record)
    (k : Cell × Cell × Cell) (_hwf : NumericWF tbl)
    (h2 : 2 ≤ (groupIdx tbl k).length) :
    (∀ i, i < (groupRecs tbl k).length →
      (groupScores (groupRecs tbl k)).getD i 0
        ≤ (groupScores (groupRecs tbl k)).getD
            (rank_records (groupRecs tbl k)) 0)
    ∧ (∀ i, i < (groupRecs tbl k).length →
        baseScore ((groupRecs tbl k).getD i default)
            = baseScore ((groupRecs tbl k).getD
                (rank_records (groupRecs tbl k)) default)
          → rank_records (groupRecs tbl k) ≤ i)
    ∧ tbl.getD (winnerIdx tbl k) default ∈ (remove_duplicates tbl).1
    ∧ (∀ i ∈ groupIdx tbl k, i ≠ winnerIdx tbl k →
        tbl.getD i default ∈ (remove_duplicates tbl).2) := by
  have hgne : groupIdx tbl k ≠ [] := by
    intro hc
    rw [hc] at h2
    simp at h2
  have hrne : groupRecs tbl k ≠ [] := by
    intro hc
    have := congrArg List.length hc
    rw [groupRecs_length] at this
    exact hgne (List.length_eq_zero.mp this)
  have hsne : groupScores (groupRecs tbl k) ≠ [] := by
    intro hc
    have := congrArg List.length hc
    rw [groupScores_length] at this
    exact hrne (List.length_eq_zero.mp this)
  have hw : rank_records (groupRecs tbl k) < (groupRecs tbl k).length := by
    have := idxmaxList_lt_length _ hsne
    rw [groupScores_length] at this
    exact this
  have hdup : dupIndices tbl ≠ [] := dupIndices_ne_of_group tbl k hgne
  refine ⟨?_, ?_, ?_, ?_⟩
  · intro i hi
    apply idxmaxList_is_max
    rw [groupScores_length]
    exact hi
  · intro i hi hbase
    have hle : (groupScores (groupRecs tbl k)).getD i 0
        ≤ (groupScores (groupRecs tbl k)).getD
            (rank_records (groupRecs tbl k)) 0 := by
      apply idxmaxList_is_max
      rw [groupScores_length]
      exact hi
    rw [groupScores, getD_range_map _ _ i hi,
      getD_range_map _ _ _ hw, hbase] at hle
    have : ((rank_records (groupRecs tbl k) : ℚ)) ≤ (i : ℚ) := by
      linarith
    exact_mod_cast this
  · have hmem := winnerIdx_mem tbl k hgne
    obtain ⟨hlt, _, _⟩ := groupIdx_mem_facts tbl k _ hmem
    rw [remove_duplicates, if_neg hdup]
    refine List.mem_map.mpr ⟨winnerIdx tbl k, ?_, rfl⟩
    rw [List.mem_filter, List.mem_range]
    exact ⟨hlt, keepRow_winner tbl k hgne⟩
  · intro i hi hne
    obtain ⟨hlt, _, _⟩ := groupIdx_mem_facts tbl k i hi
    rw [remove_duplicates, if_neg hdup]
    refine List.mem_map.mpr ⟨i, ?_, rfl⟩
    rw [List.mem_filter, List.mem_range]
    exact ⟨hlt, by rw [keepRow_loser tbl k i hi hne]; rfl⟩

/-- Two records sharing the identity key (`T`, missing, missing); the
first has the higher review count. -/
def dupRecA : Record :=
  ⟨Cell.str ("T"), Cell.missing, Cell.missing, Cell.missing, Cell.num 5,
   Cell.missing, Cell.missing, []⟩

def dupRecB : Record :=
  ⟨Cell.str ("T"), Cell.missing, Cell.missing, Cell.missing, Cell.num 3,
   Cell.missing, Cell.missing, []⟩

def dupTable : List Record := [dupRecA, dupRecB]

def dupKeyT : Cell × Cell × Cell :=
  (Cell.str ("T"), Cell.missing, Cell.missing)

/-- Witness for C1 on the concrete two-record duplicate group of
`dupTable`: the selected record survives in the cleaned table. -/
theorem rank_retains_max_score_witness :
    dupTable.getD (winnerIdx dupTable dupKeyT) default
      ∈ (remove_duplicates dupTable).1 :=
  (rank_retains_max_score dupTable dupKeyT (by decide) (by decide)).2.2.1

/-- Witness for C6 on the concrete table `dupTable`: one pass removes a
duplicate, the second pass removes nothing. -/
theorem remove_duplicates_idempotent_witness :
    remove_duplicates ((remove_duplicates dupTable).1)
      = ((remove_duplicates dupTable).1, []) :=
  remove_duplicates_idempotent dupTable (by decide)

/-! ## C4: records with all identity-key fields missing -/

def allMissingKey : Cell × Cell × Cell :=
  (Cell.missing, Cell.missing, Cell.missing)

theorem removed_nonempty_of_same_key (tbl : List Record) (i j : Nat)
    (hi : i < tbl.length) (hj : j < tbl.length) (hij : i ≠ j)
    (hk : keyAt tbl i = keyAt tbl j) :
    (remove_duplicates tbl).2 ≠ [] := by
  have hdi : hasDupKey tbl i = true :=
    (hasDupKey_iff tbl i).mpr ⟨j, hj, fun hc => hij hc.symm, hk.symm⟩
  have hdj : hasDupKey tbl j = true :=
    (hasDupKey_iff tbl j).mpr ⟨i, hi, hij, hk⟩
  have hgi : i ∈ groupIdx tbl (keyAt tbl i) := by
    unfold groupIdx dupIndices
    rw [List.mem_filter, List.mem_filter, List.mem_range]
    exact ⟨⟨hi, by simpa using hdi⟩, by simp⟩
  have hgj : j ∈ groupIdx tbl (keyAt tbl i) := by
    unfold groupIdx dupIndices
    rw [List.mem_filter, List.mem_filter, List.mem_range]
    exact ⟨⟨hj, by simpa using hdj⟩, by simp [hk]⟩
  have hdup : dupIndices tbl ≠ [] :=
    dupIndices_ne_of_group tbl (keyAt tbl i) (List.ne_nil_of_mem hgi)
  have hm : ∃ m, m ∈ groupIdx tbl (keyAt tbl i)
      ∧ m ≠ winnerIdx tbl (keyAt tbl i) ∧ m < tbl.length := by
    by_cases hc : i = winnerIdx tbl (keyAt tbl i)
    · exact ⟨j, hgj, by rw [← hc]; exact fun h2 => hij h2.symm, hj⟩
    · exact ⟨i, hgi, hc, hi⟩
  obtain ⟨m, hmg, hmw, hml⟩ := hm
  have hkr : keepRow tbl m = false :=
    keepRow_loser tbl (keyAt tbl i) m hmg hmw
  apply List.ne_nil_of_mem
  rw [remove_duplicates, if_neg hdup]
  refine List.mem_map.mpr ⟨m, ?_, rfl⟩
  rw [List.mem_filter, List.mem_range]
  exact ⟨hml, by rw [hkr]; rfl⟩

/-- Claim C4 (amended): records whose identity-key fields are all missing
compare equal on the key — `duplicated` and `groupby(dropna=False)` treat
NaN as equal to NaN — so two distinct rows that are both all-missing on
the key are merged into the same duplicate group, and `remove_duplicates`
removes at least one record from the table; a record forms its own
singleton group, and is never removed, only when no other row carries the
same key. -/
theorem all_missing_keys_merged (tbl : List Record) (i j : Nat)
    (hi : i < tbl.length) (hj : j < tbl.length) (hij : i ≠ j)
    (hki : keyAt tbl i = allMissingKey)
    (hkj : keyAt tbl j = allMissingKey) :
    keyAt tbl i = keyAt tbl j
    ∧ hasDupKey tbl i = true
    ∧ i ∈ groupIdx tbl allMissingKey
    ∧ j ∈ groupIdx tbl allMissingKey
    ∧ (remove_duplicates tbl).2 ≠ []
    ∧ (∀ t2 : List Record, ∀ m, m < t2.length →
        (∀ n, n < t2.length → n ≠ m → keyAt t2 n ≠ keyAt t2 m) →
        t2.getD m default ∈ (remove_duplicates t2).1) := by
  have hk : keyAt tbl i = keyAt tbl j := by rw [hki, hkj]
  have hdi : hasDupKey tbl i = true :=
    (hasDupKey_iff tbl i).mpr ⟨j, hj, fun hc => hij hc.symm, hk.symm⟩
  have hdj : hasDupKey tbl j = true :=
    (hasDupKey_iff tbl j).mpr ⟨i, hi, hij, hk⟩
  refine ⟨hk, hdi, ?_, ?_, ?_, ?_⟩
  · unfold groupIdx dupIndices
    rw [List.mem_filter, List.mem_filter, List.mem_range]
    exact ⟨⟨hi, by simpa using hdi⟩, by simp [hki]⟩
  · unfold groupIdx dupIndices
    rw [List.mem_filter, List.mem_filter, List.mem_range]
    exact ⟨⟨hj, by simpa using hdj⟩, by simp [hkj]⟩
  · exact removed_nonempty_of_same_key tbl i j hi hj hij hk
  · intro t2 m hm hdist
    have hnd : hasDupKey t2 m = false := by
      rw [Bool.eq_false_iff]
      intro hc
      obtain ⟨n, hn, hnm, hkn⟩ := (hasDupKey_iff t2 m).mp hc
      exact hdist n hn hnm hkn
    have hkr : keepRow t2 m = true := by
      unfold keepRow
      rw [hnd]
      rfl
    by_cases hd2 : dupIndices t2 = []
    · rw [remove_duplicates, if_pos hd2]
      exact getD_lt_mem t2 m default hm
    · rw [remove_duplicates, if_neg hd2]
      refine List.mem_map.mpr ⟨m, ?_, rfl⟩
      rw [List.mem_filter, List.mem_range]
      exact ⟨hm, hkr⟩

/-- A record with every field missing. -/
def missA : Record :=
  ⟨Cell.missing, Cell.missing, Cell.missing, Cell.missing, Cell.missing,
   Cell.missing, Cell.missing, []⟩

/-- A distinct record whose identity-key fields are all missing but whose
description is present. -/
def missB : Record :=
  ⟨Cell.missing, Cell.missing, Cell.missing, Cell.missing, Cell.missing,
   Cell.missing, Cell.str ("x"), []⟩

def missTable : List Record := [missA, missB]

/-- Claim C4 counterexample: two distinct records with all identity-key
fields missing land in one duplicate group of `missTable`, and
`remove_duplicates` removes a record — such rows are not singleton
groups. -/
theorem all_missing_key_removed_counterexample :
    missA ≠ missB
    ∧ keyOf missA = allMissingKey
    ∧ keyOf missB = allMissingKey
    ∧ groupIdx missTable allMissingKey = [0, 1]
    ∧ (remove_duplicates missTable).2 ≠ [] := by
  refine ⟨by decide, by decide, by decide, by decide, ?_⟩
  exact removed_nonempty_of_same_key missTable 0 1 (by decide) (by decide)
    (by decide) (by decide)

/-- Witness for the amended C4 at the concrete table `missTable`. -/
theorem all_missing_keys_merged_witness :
    (0 : Nat) ∈ groupIdx missTable allMissingKey
    ∧ (1 : Nat) ∈ groupIdx missTable allMissingKey
    ∧ (remove_duplicates missTable).2 ≠ [] := by
  have h := all_missing_keys_merged missTable 0 1 (by decide) (by decide)
    (by decide) (by decide) (by decide)
  exact ⟨h.2.2.1, h.2.2.2.1, h.2.2.2.2.1⟩
